import Mathlib

/-!
Verification development for the OpenAI → NVIDIA NIM proxy server
(`server.js`).  The streaming SSE transcoder, the model mapper and the
non-streaming response builder are embedded shallowly: strings are lists
of characters, JSON values are an inductive type with an executable
parser and serializer, and the per-connection stream handler becomes a
pure state-transition function on the accumulator buffer.
-/

set_option maxRecDepth 10000

/-- Strings are modelled as lists of characters (`chunk.toString()` output). -/
abbrev Str := List Char

/-- `pre.isPrefixOf s` in the sense of JavaScript `s.startsWith(pre)`. -/
def startsWith : Str → Str → Bool
  | [], _ => true
  | _ :: _, [] => false
  | a :: as, b :: bs => a = b && startsWith as bs

/-- JavaScript `s.includes(needle)`: substring containment. -/
def containsSub (needle : Str) : Str → Bool
  | [] => startsWith needle []
  | c :: rest => startsWith needle (c :: rest) || containsSub needle rest

/-- Prepend a character to the first segment of a split result. -/
def consHead (c : Char) : List Str → List Str
  | [] => [[c]]
  | s :: ss => (c :: s) :: ss

/-- JavaScript `s.split("\n")`: the list of newline-free segments. -/
def splitNl : Str → List Str
  | [] => [[]]
  | c :: rest => if c = '\n' then [] :: splitNl rest else consHead c (splitNl rest)

/-- `lines.pop() || ""`: the final segment of the split, the new buffer. -/
def lastSeg (segs : List Str) : Str := (segs.getLast?).getD []

/-- A string with no newline: one logical line (or a partial fragment). -/
@[reducible] def noNl (s : Str) : Prop := '\n' ∉ s

/-- Concatenation of newline-terminated lines. -/
def terminated : List Str → Str
  | [] => []
  | l :: ls => l ++ '\n' :: terminated ls

/-! ## JSON values

JavaScript values that can appear in parsed SSE payloads.  Numeric
literals are modelled as integers; fractional and exponent literals are
outside this embedding (no claim depends on float arithmetic). -/

inductive Js where
  | null : Js
  | bool : Bool → Js
  | num : Int → Js
  | str : Str → Js
  | arr : List Js → Js
  | obj : List (Str × Js) → Js

/-- First-match association lookup (object fields are unique by parsing). -/
def lookupF : List (Str × Js) → Str → Option Js
  | [], _ => none
  | (k', v) :: fs, k => if k' = k then some v else lookupF fs k

/-- JavaScript property write `o[k] = v`: replace in place, else append. -/
def setFieldF : List (Str × Js) → Str → Js → List (Str × Js)
  | [], k, v => [(k, v)]
  | (k', v') :: fs, k, v => if k' = k then (k, v) :: fs else (k', v') :: setFieldF fs k v

/-- Property read returning `undefined` (`none`) for anything without the
field.  Reads on `null` are handled at each call site (they throw). -/
def propU : Js → Str → Option Js
  | .obj fs, k => lookupF fs k
  | _, _ => none

/-- Optional chaining `x?.k`: `undefined`/`null` short-circuit to `undefined`. -/
def optProp (x : Option Js) (k : Str) : Option Js :=
  match x with
  | none => none
  | some .null => none
  | some v => propU v k

/-- Optional chaining `x?.[0]`. -/
def optIndex0 (x : Option Js) : Option Js :=
  match x with
  | none => none
  | some .null => none
  | some (.arr xs) => xs.head?
  | some (.obj fs) => lookupF fs (("0").data)
  | some (.str s) => s.head?.map (fun c => .str [c])
  | some _ => none

/-- Nullish coalescing `x ?? d`. -/
def nullish (x : Option Js) (d : Js) : Js :=
  match x with
  | none => d
  | some .null => d
  | some v => v

/-- JavaScript truthiness. -/
def truthy : Js → Bool
  | .null => false
  | .bool b => b
  | .num n => n != 0
  | .str s => !s.isEmpty
  | .arr _ => true
  | .obj _ => true

/-- Truthiness of a possibly-`undefined` value. -/
def truthyO (x : Option Js) : Bool :=
  match x with
  | none => false
  | some v => truthy v

/-- Decimal digits of a natural number. -/
def natToStr (n : Nat) : Str := Nat.toDigits 10 n

/-- Decimal rendering of an integer. -/
def intToStr (n : Int) : Str :=
  if n < 0 then '-' :: natToStr n.natAbs else natToStr n.natAbs

mutual
/-- String coercion used by template literals (`String(v)`). -/
def toStringJs : Js → Str
  | .null => ("null").data
  | .bool true => ("true").data
  | .bool false => ("false").data
  | .num n => intToStr n
  | .str s => s
  | .arr xs => toStringArr xs
  | .obj _ => ("[object Object]").data
def toStringArr : List Js → Str
  | [] => []
  | [.null] => []
  | [x] => toStringJs x
  | .null :: xs => ',' :: toStringArr xs
  | x :: xs => toStringJs x ++ ',' :: toStringArr xs
end

/-- Template-literal coercion of a possibly-`undefined` value. -/
def toStringJsU (x : Option Js) : Str :=
  match x with
  | none => ("undefined").data
  | some v => toStringJs v

/-- Hex digit for string escapes. -/
def hexDigitChar (n : Nat) : Char :=
  if n < 10 then Char.ofNat (48 + n) else Char.ofNat (87 + n)

/-- `JSON.stringify` escaping of one string character. -/
def escapeChar (c : Char) : Str :=
  if c = '"' then ['\\', '"']
  else if c = '\\' then ['\\', '\\']
  else if c = '\n' then ['\\', 'n']
  else if c = '\r' then ['\\', 'r']
  else if c = '\t' then ['\\', 't']
  else if c.toNat = 8 then ['\\', 'b']
  else if c.toNat = 12 then ['\\', 'f']
  else if c.toNat < 32 then
    ['\\', 'u', '0', '0', hexDigitChar (c.toNat / 16), hexDigitChar (c.toNat % 16)]
  else [c]

/-- `JSON.stringify` of a string body. -/
def escapeStr : Str → Str
  | [] => []
  | c :: rest => escapeChar c ++ escapeStr rest

mutual
/-- `JSON.stringify`. -/
def serialize : Js → Str
  | .null => ("null").data
  | .bool true => ("true").data
  | .bool false => ("false").data
  | .num n => intToStr n
  | .str s => '"' :: escapeStr s ++ ['"']
  | .arr xs => '[' :: serializeArr xs ++ [']']
  | .obj fs => '\x7b' :: serializeFields fs ++ ['\x7d']
def serializeArr : List Js → Str
  | [] => []
  | [x] => serialize x
  | x :: xs => serialize x ++ ',' :: serializeArr xs
def serializeFields : List (Str × Js) → Str
  | [] => []
  | [(k, v)] => '"' :: escapeStr k ++ '"' :: ':' :: serialize v
  | (k, v) :: fs => '"' :: escapeStr k ++ '"' :: ':' :: serialize v ++ ',' :: serializeFields fs
end

/-! ## JSON parsing (`JSON.parse`) -/

/-- JSON insignificant whitespace. -/
def isWs (c : Char) : Bool :=
  c = ' ' || c = '\t' || c = '\n' || c = '\r'

/-- Skip leading whitespace. -/
def skipWs : Str → Str
  | [] => []
  | c :: rest => if isWs c then skipWs rest else c :: rest

/-- Hexadecimal digit value. -/
def hexVal (c : Char) : Option Nat :=
  if '0' ≤ c && c ≤ '9' then some (c.toNat - 48)
  else if 'a' ≤ c && c ≤ 'f' then some (c.toNat - 87)
  else if 'A' ≤ c && c ≤ 'F' then some (c.toNat - 55)
  else none

/-- Simple escape characters in JSON strings. -/
def escChar (c : Char) : Option Char :=
  if c = '"' then some '"'
  else if c = '\\' then some '\\'
  else if c = '/' then some '/'
  else if c = 'b' then some (Char.ofNat 8)
  else if c = 'f' then some (Char.ofNat 12)
  else if c = 'n' then some '\n'
  else if c = 'r' then some '\r'
  else if c = 't' then some '\t'
  else none

/-- Parse the body of a JSON string after the opening quote; returns the
decoded characters together with the input after the closing quote. -/
def parseStrBody : Str → Option (Str × Str)
  | [] => none
  | '"' :: rest => some ([], rest)
  | '\\' :: 'u' :: a :: b :: c :: d :: rest => do
    let ha ← hexVal a
    let hb ← hexVal b
    let hc ← hexVal c
    let hd ← hexVal d
    let (s, r) ← parseStrBody rest
    pure (Char.ofNat (ha * 4096 + hb * 256 + hc * 16 + hd) :: s, r)
  | '\\' :: e :: rest => do
    let ch ← escChar e
    let (s, r) ← parseStrBody rest
    pure (ch :: s, r)
  | c :: rest =>
    if c.toNat < 32 then none
    else do
      let (s, r) ← parseStrBody rest
      pure (c :: s, r)

/-- Digit test. -/
def isDigitC (c : Char) : Bool := '0' ≤ c && c ≤ '9'

/-- Value of a digit sequence. -/
def digitsVal : Str → Nat
  | [] => 0
  | c :: rest => (c.toNat - 48) * 10 ^ rest.length + digitsVal rest

/-- Parse an integer JSON number literal (leading zeros rejected). -/
def parseNum (s : Str) : Option (Js × Str) :=
  let (neg, s1) := match s with
    | '-' :: r => (true, r)
    | r => (false, r)
  let ds := s1.takeWhile isDigitC
  let rest := s1.dropWhile isDigitC
  if ds.isEmpty then none
  else if ds.length > 1 && ds.head? = some '0' then none
  else
    let n : Int := (digitsVal ds : Nat)
    some (.num (if neg then -n else n), rest)

mutual
/-- Parse one JSON value (the fuel strictly exceeds the input length). -/
def parseValue : Nat → Str → Option (Js × Str)
  | 0, _ => none
  | fuel + 1, s =>
    match skipWs s with
    | 'n' :: 'u' :: 'l' :: 'l' :: r => some (.null, r)
    | 't' :: 'r' :: 'u' :: 'e' :: r => some (.bool true, r)
    | 'f' :: 'a' :: 'l' :: 's' :: 'e' :: r => some (.bool false, r)
    | '"' :: r => (parseStrBody r).map (fun p => (.str p.1, p.2))
    | '[' :: r =>
      (match skipWs r with
       | ']' :: r2 => some (.arr [], r2)
       | _ => parseElems fuel r [])
    | '\x7b' :: r =>
      (match skipWs r with
       | '\x7d' :: r2 => some (.obj [], r2)
       | _ => parseMembers fuel r [])
    | r => parseNum r

/-- Parse the elements of a non-empty JSON array. -/
def parseElems : Nat → Str → List Js → Option (Js × Str)
  | 0, _, _ => none
  | fuel + 1, s, acc => do
    let (v, r) ← parseValue fuel s
    match skipWs r with
    | ',' :: r2 => parseElems fuel r2 (acc ++ [v])
    | ']' :: r2 => some (.arr (acc ++ [v]), r2)
    | _ => none

/-- Parse the members of a non-empty JSON object (duplicate keys overwrite
in place, as in JavaScript). -/
def parseMembers : Nat → Str → List (Str × Js) → Option (Js × Str)
  | 0, _, _ => none
  | fuel + 1, s, acc =>
    match skipWs s with
    | '"' :: r => do
      let (k, r2) ← parseStrBody r
      match skipWs r2 with
      | ':' :: r3 => do
        let (v, r4) ← parseValue fuel r3
        let acc2 := setFieldF acc k v
        match skipWs r4 with
        | ',' :: r5 => parseMembers fuel r5 acc2
        | '\x7d' :: r5 => some (.obj acc2, r5)
        | _ => none
      | _ => none
    | _ => none
end

/-- `JSON.parse`: the whole input must be consumed. -/
def parseJson (s : Str) : Option Js :=
  match parseValue (s.length + 2) s with
  | some (v, rest) => if skipWs rest = [] then some v else none
  | none => none

/-! ## Streaming event transcoder (`server.js` chat-completions stream path)

Feature toggle `SHOW_REASONING` is a process-wide constant in the source;
the transcoder takes it as an explicit parameter so both toggle states can
be stated, and the source's constant value is recorded separately. -/

/-- `const SHOW_REASONING = false;` -/
def SHOW_REASONING : Bool := false

/-- The `"data:"` line marker. -/
def dataTag : Str := ("data:").data

/-- The stream-termination sentinel text. -/
def doneTag : Str := ("[DONE]").data

/-- The verbatim terminal sentinel event written downstream. -/
def sentinelOut : Str := ("data: [DONE]\n\n").data

/-- Object key `"choices"`. -/
def kChoices : Str := ("choices").data

/-- Object key `"delta"`. -/
def kDelta : Str := ("delta").data

/-- Object key `"content"`. -/
def kContent : Str := ("content").data

/-- Object key `"reasoning_content"`. -/
def kReasoning : Str := ("reasoning_content").data

/-- The `"<think>"` opening marker of the merged reasoning block. -/
def thinkOpen : Str := ("<think>").data

/-- The `"</think>\n\n"` closing marker plus the two newlines. -/
def thinkCloseNl : Str := ("</think>\n\n").data

/-- `parsed.choices?.[0]?.delta ?? {}`; `none` models the `TypeError`
thrown when `parsed` itself is `null`. -/
def readDelta (parsed : Js) : Option Js :=
  match parsed with
  | .null => none
  | p => some (nullish (optProp (optIndex0 (propU p kChoices)) kDelta) (.obj []))

/-- The content-merge rule:
`let content = delta.content ?? ""`,
`const reasoning = delta.reasoning_content ?? ""`,
`if (SHOW_REASONING && reasoning) content = "<think>" + reasoning + "</think>\n\n" + content`. -/
def mergeContent (showR : Bool) (delta : Js) : Js :=
  let content := nullish (propU delta kContent) (.str [])
  let reasoning := nullish (propU delta kReasoning) (.str [])
  if showR && truthy reasoning then
    .str (thinkOpen ++ toStringJs reasoning ++ thinkCloseNl ++ toStringJs content)
  else content

/-- `parsed.choices[0].delta = newDelta`: succeeds only when the first
choice is an object (property writes on `null`, `undefined` or primitives
throw in strict mode; non-array `choices` containers and non-object
choice elements are outside the upstream protocol shape). -/
def setFirstChoiceDelta (parsed : Js) (newDelta : Js) : Option Js :=
  match propU parsed kChoices with
  | some (.arr (.obj fs :: cs)) =>
    some (match parsed with
          | .obj pfs => .obj (setFieldF pfs kChoices (.arr (.obj (setFieldF fs kDelta newDelta) :: cs)))
          | p => p)
  | _ => none

/-- The body of the per-line `try` block: parse, merge, rewrite the delta.
`none` models any caught exception (parse failure or `TypeError`). -/
def transcodeEvent (showR : Bool) (payload : Str) : Option Js :=
  match parseJson payload with
  | none => none
  | some parsed =>
    match readDelta parsed with
    | none => none
    | some delta => setFirstChoiceDelta parsed (.obj [(kContent, mergeContent showR delta)])

/-- The emitted wire line `"data: " + JSON.stringify(parsed) + "\n\n"`
for a `"data:"` line's payload, or `none` when the line is dropped. -/
def handleDataLine (showR : Bool) (payload : Str) : Option Str :=
  (transcodeEvent showR payload).map
    (fun ev => ("data: ").data ++ serialize ev ++ ("\n\n").data)

/-- The `for (const line of lines)` loop of one `data` callback: the
outputs written and whether the `[DONE]` early `return` fired (skipping
the rest of this chunk's lines). -/
def processLines (showR : Bool) : List Str → List Str × Bool
  | [] => ([], false)
  | l :: ls =>
    if startsWith dataTag l = false then processLines showR ls
    else if containsSub doneTag l then ([sentinelOut], true)
    else
      match handleDataLine showR (l.drop 5) with
      | none => processLines showR ls
      | some out =>
        let r := processLines showR ls
        (out :: r.1, r.2)

/-- One chunk of the SSE Frame Reassembler:
`buffer += chunk; const lines = buffer.split("\n"); buffer = lines.pop() || ""`. -/
def stepRA (buf chunk : Str) : List Str × Str :=
  let segs := splitNl (buf ++ chunk)
  (segs.dropLast, lastSeg segs)

/-- The Reassembler over a whole sequence of chunks: all complete lines
produced, in arrival order, with the final accumulator value. -/
def runRA (buf : Str) : List Str → List Str × Str
  | [] => ([], buf)
  | c :: cs =>
    let p := stepRA buf c
    let q := runRA p.2 cs
    (p.1 ++ q.1, q.2)

/-- One full `data` callback: reassemble, then transcode this chunk's
complete lines. -/
def streamStep (showR : Bool) (buf chunk : Str) : List Str × Str :=
  let p := stepRA buf chunk
  ((processLines showR p.1).1, p.2)

/-- The whole streaming connection: every `data` callback in order.  The
source keeps no done-flag across callbacks, so each chunk is processed
regardless of earlier sentinel lines. -/
def runStream (showR : Bool) (buf : Str) : List Str → List Str × Str
  | [] => ([], buf)
  | c :: cs =>
    let p := streamStep showR buf c
    let q := runStream showR p.2 cs
    (p.1 ++ q.1, q.2)

/-- `nimResponse.data.on("end", () => res.end())`: the end handler closes
the response and writes nothing; the residual accumulator is discarded. -/
def onEnd (_buf : Str) : List Str := []

/-- Everything written downstream over the connection's life: the chunk
outputs followed by the (empty) end-of-stream output. -/
def runStreamWithEnd (showR : Bool) (chunks : List Str) : List Str :=
  (runStream showR [] chunks).1 ++ onEnd (runStream showR [] chunks).2

/-! ## Model Mapper -/

/-- Association lookup over the model table. -/
def lookupS : List (Str × Str) → Str → Option Str
  | [], _ => none
  | (k', v) :: fs, k => if k' = k then some v else lookupS fs k

/-- The static `MODEL_MAPPING` table. -/
def MODEL_MAPPING : List (Str × Str) :=
  [(("gpt-3.5-turbo").data, ("nvidia/llama-3.1-nemotron-ultra-253b-v1").data),
   (("gpt-4").data, ("deepseek-ai/deepseek-v3.2").data),
   (("gpt-4-turbo").data, ("moonshotai/kimi-k2-instruct-0905").data),
   (("gpt-4o").data, ("moonshotai/kimi-k2.5").data),
   (("claude-3-opus").data, ("z-ai/glm4.7").data),
   (("claude-3-sonnet").data, ("openai/gpt-oss-20b").data),
   (("gemini-pro").data, ("z-ai/glm5").data)]

/-- `const FALLBACK_MODEL = "meta/llama-3.1-8b-instruct";` -/
def FALLBACK_MODEL : Str := ("meta/llama-3.1-8b-instruct").data

/-- A value produced by the indexed read `MODEL_MAPPING[model]` (or the
fallback): either a string, or an inherited `Object.prototype` member —
a function, or the prototype object itself for `__proto__` — which is
truthy but is not an upstream identifier. -/
inductive ModelValue where
  | str : Str → ModelValue
  | protoMember : Str → ModelValue
deriving DecidableEq

/-- The property names an object literal inherits from
`Object.prototype`, all readable through `obj[key]`. -/
def objectProtoKeys : List Str :=
  [("constructor").data, ("hasOwnProperty").data, ("isPrototypeOf").data,
   ("propertyIsEnumerable").data, ("toLocaleString").data, ("toString").data,
   ("valueOf").data, ("__proto__").data, ("__defineGetter__").data,
   ("__defineSetter__").data, ("__lookupGetter__").data, ("__lookupSetter__").data]

/-- The indexed read `MODEL_MAPPING[model]`: an own key yields its string
value; otherwise the read traverses the prototype chain, so the names of
inherited `Object.prototype` members yield those members; anything else
is `undefined`. -/
def modelMappingGet (model : Str) : Option ModelValue :=
  match lookupS MODEL_MAPPING model with
  | some v => some (.str v)
  | none =>
    if model ∈ objectProtoKeys then some (.protoMember model) else none

/-- JavaScript truthiness of a value read off `MODEL_MAPPING`: inherited
prototype members (functions, or the prototype object) are truthy. -/
def truthyModelValue : ModelValue → Bool
  | .str s => !s.isEmpty
  | .protoMember _ => true

/-- `const nimModel = MODEL_MAPPING[model] || FALLBACK_MODEL;` with the
full indexed-read semantics. -/
def nimModelOf (model : Str) : ModelValue :=
  match modelMappingGet model with
  | some v => if truthyModelValue v then v else .str FALLBACK_MODEL
  | none => .str FALLBACK_MODEL

/-- The string `MODEL_MAPPING[model] || FALLBACK_MODEL` evaluates to for
model names that are not inherited `Object.prototype` member names (see
`nimModelOf` for the full indexed-read semantics, and
`nimModelOf_eq_resolveModel` for the agreement); used to contrast the
echoed model field with the resolved upstream identifier. -/
def resolveModel (model : Str) : Str :=
  match lookupS MODEL_MAPPING model with
  | some v => if v.isEmpty then FALLBACK_MODEL else v
  | none => FALLBACK_MODEL

/-! ## Non-stream Response Transcoder -/

/-- Object key `"message"`. -/
def kMessage : Str := ("message").data

/-- Object key `"index"`. -/
def kIndex : Str := ("index").data

/-- Object key `"finish_reason"`. -/
def kFinishReason : Str := ("finish_reason").data

/-- Object key `"role"`. -/
def kRole : Str := ("role").data

/-- Object key `"usage"`. -/
def kUsage : Str := ("usage").data

/-- Object key `"model"`. -/
def kModel : Str := ("model").data

/-- The fixed role string. -/
def roleAssistant : Str := ("assistant").data

/-- Build object fields, dropping `undefined` values the way
`JSON.stringify` (and `res.json`) drops them from the wire object. -/
def mkObjFields : List (Str × Option Js) → List (Str × Js)
  | [] => []
  | (_, none) :: fs => mkObjFields fs
  | (k, some v) :: fs => (k, v) :: mkObjFields fs

/-- The per-choice object of the non-streaming rewrite
(`{ index, message: { role, content }, finish_reason }`). -/
def mkChoiceObj (c : Js) (contentV : Option Js) : Js :=
  .obj (mkObjFields
    [(kIndex, propU c kIndex),
     (kMessage, some (.obj (mkObjFields
        [(kRole, some (.str roleAssistant)), (kContent, contentV)]))),
     (kFinishReason, propU c kFinishReason)])

/-- The choice-map body for a non-`null` element `c`:
`{ index: c.index, message: { role: "assistant", content: ... }, finish_reason: c.finish_reason }`
with the same reasoning-merge rule as the streaming path, reading from
`c.message`; `none` models a thrown `TypeError` (reading `content` of a
missing or `null` `message`). -/
def mapChoiceBody (showR : Bool) (c : Js) : Option Js :=
  let msg := propU c kMessage
  let reasoning := optProp msg kReasoning
  if showR && truthyO reasoning then
    match msg with
    | none => none
    | some .null => none
    | some m =>
      some (mkChoiceObj c (some (.str (thinkOpen ++ toStringJsU (propU m kReasoning)
        ++ thinkCloseNl ++ toStringJsU (propU m kContent)))))
  else
    match msg with
    | none => none
    | some .null => none
    | some m => some (mkChoiceObj c (propU m kContent))

/-- One upstream choice mapped by `nimResponse.data.choices.map(c => ...)`
(property access on a `null` element throws). -/
def mapChoice (showR : Bool) (c : Js) : Option Js :=
  match c with
  | .null => none
  | _ => mapChoiceBody showR c

/-- What the non-streaming rewrite preserves of an upstream choice:
index and finish reason verbatim, and a message object whose role is
`"assistant"`. -/
def choiceCarries (c cOut : Js) : Prop :=
  propU cOut kIndex = propU c kIndex ∧
  propU cOut kFinishReason = propU c kFinishReason ∧
  ∃ m, propU cOut kMessage = some m ∧ propU m kRole = some (.str roleAssistant)

/-- `choices.map(...)` over the list, stopping at the first throw. -/
def mapChoices (showR : Bool) : List Js → Option (List Js)
  | [] => some []
  | c :: cs =>
    match mapChoice showR c, mapChoices showR cs with
    | some c', some cs' => some (c' :: cs')
    | _, _ => none

/-- Object key `"id"`. -/
def kId : Str := ("id").data

/-- Object key `"object"`. -/
def kObject : Str := ("object").data

/-- Object key `"created"`. -/
def kCreated : Str := ("created").data

/-- Object key `"error"`. -/
def kError : Str := ("error").data

/-- The whole `openaiResponse` object of the non-streaming branch; `now`
stands for `Date.now()`.  `none` models a thrown `TypeError` (missing or
non-array `choices`, or a failing choice), caught by the handler. -/
def buildOpenAIResponse (showR : Bool) (now : Nat) (model : Str) (data : Js) : Option Js :=
  match data with
  | .null => none
  | d =>
    match propU d kChoices with
    | some (.arr cs) =>
      match mapChoices showR cs with
      | none => none
      | some cs' =>
        some (.obj
          [(kId, .str (("chatcmpl-").data ++ natToStr now)),
           (kObject, .str (("chat.completion").data)),
           (kCreated, .num (now / 1000 : Nat)),
           (kModel, .str model),
           (kChoices, .arr cs'),
           (kUsage, nullish (propU d kUsage) (.obj []))])
    | _ => none

/-- The generic 500 error body of the surrounding `catch`. -/
def errorBody : Js :=
  .obj [(kError, .obj
    [(("message").data, .str (("Upstream NIM error").data)),
     (("type").data, .str (("proxy_error").data))])]

/-- The non-streaming route outcome: the success JSON (status 200) or the
collapsed generic 500 error from the `catch` block. -/
def handleNonStreamRoute (showR : Bool) (now : Nat) (model : Str) (data : Js) : Nat × Js :=
  match buildOpenAIResponse showR now model data with
  | some resp => (200, resp)
  | none => (500, errorBody)


/-! ## String splitting lemmas -/

theorem splitNl_ne_nil (s : Str) : splitNl s ≠ [] := by
  induction s with
  | nil => simp [splitNl]
  | cons c rest ih =>
    simp only [splitNl]
    split
    · simp
    · cases h : splitNl rest with
      | nil => exact absurd h ih
      | cons a as => simp [consHead]

theorem splitNl_of_noNl (s : Str) (h : noNl s) : splitNl s = [s] := by
  induction s with
  | nil => rfl
  | cons c rest ih =>
    have hc : c ≠ '\n' := fun hc => h (by simp [hc])
    have hr : noNl rest := fun hm => h (List.mem_cons_of_mem _ hm)
    simp [splitNl, hc, ih hr, consHead]

theorem splitNl_term (a s : Str) (h : noNl a) :
    splitNl (a ++ '\n' :: s) = a :: splitNl s := by
  induction a with
  | nil => simp [splitNl]
  | cons c rest ih =>
    have hc : c ≠ '\n' := fun hc => h (by simp [hc])
    have hr : noNl rest := fun hm => h (List.mem_cons_of_mem _ hm)
    simp [splitNl, hc, ih hr, consHead]

theorem splitNl_canonical (ls : List Str) (frag : Str)
    (hls : ∀ l ∈ ls, noNl l) (hfrag : noNl frag) :
    splitNl (terminated ls ++ frag) = ls ++ [frag] := by
  induction ls with
  | nil => simpa [terminated] using splitNl_of_noNl frag hfrag
  | cons l ls ih =>
    have hl : noNl l := hls l (by simp)
    have hrest : ∀ x ∈ ls, noNl x := fun x hx => hls x (by simp [hx])
    simp only [terminated, List.append_assoc, List.cons_append]
    rw [splitNl_term l _ hl, ih hrest]

theorem splitNl_parts_noNl (s : Str) : ∀ seg ∈ splitNl s, noNl seg := by
  induction s with
  | nil =>
    intro seg hseg
    simp only [splitNl, List.mem_singleton] at hseg
    subst hseg
    intro h
    cases h
  | cons c rest ih =>
    intro seg hseg
    by_cases hc : c = '\n'
    · rw [splitNl, if_pos hc] at hseg
      rcases List.mem_cons.mp hseg with h | h
      · subst h
        intro h2
        cases h2
      · exact ih seg h
    · rw [splitNl, if_neg hc] at hseg
      obtain ⟨a, as, h⟩ := List.exists_cons_of_ne_nil (splitNl_ne_nil rest)
      rw [h, consHead] at hseg
      rcases List.mem_cons.mp hseg with h1 | h1
      · subst h1
        intro hm
        rcases List.mem_cons.mp hm with h2 | h2
        · exact hc h2.symm
        · exact ih a (by rw [h]; exact List.mem_cons_self a as) h2
      · exact ih seg (by rw [h]; exact List.mem_cons_of_mem a h1)

theorem split_join (s : Str) :
    terminated (splitNl s).dropLast ++ lastSeg (splitNl s) = s := by
  induction s with
  | nil => rfl
  | cons c rest ih =>
    obtain ⟨s₀, S', hS⟩ := List.exists_cons_of_ne_nil (splitNl_ne_nil rest)
    by_cases hc : c = '\n'
    · subst hc
      simp only [splitNl, if_pos rfl, hS]
      rw [hS] at ih
      cases S' with
      | nil =>
        simp only [lastSeg, List.dropLast, terminated] at ih ⊢
        simpa using ih
      | cons s₁ S'' =>
        simp only [lastSeg, terminated, List.dropLast] at ih ⊢
        simp only [List.getLast?_cons_cons] at ih ⊢
        simpa using ih
    · simp only [splitNl, if_neg hc, hS, consHead]
      rw [hS] at ih
      cases S' with
      | nil =>
        simp only [lastSeg, List.dropLast, terminated] at ih ⊢
        simp at ih
        simpa using congrArg (c :: ·) ih
      | cons s₁ S'' =>
        simp only [lastSeg, terminated, List.dropLast, List.getLast?_cons_cons] at ih ⊢
        simp only [List.cons_append, List.append_assoc] at ih ⊢
        rw [← ih]

theorem terminated_append (xs ys : List Str) :
    terminated (xs ++ ys) = terminated xs ++ terminated ys := by
  induction xs with
  | nil => rfl
  | cons l ls ih => simp [terminated, ih]

theorem lastSeg_noNl (s : Str) : noNl (lastSeg (splitNl s)) := by
  obtain ⟨s₀, S', hS⟩ := List.exists_cons_of_ne_nil (splitNl_ne_nil s)
  have hmem : lastSeg (splitNl s) ∈ splitNl s := by
    rw [hS]
    simp only [lastSeg]
    rw [List.getLast?_eq_getLast _ (by simp)]
    simp only [Option.getD_some]
    exact List.getLast_mem _
  exact splitNl_parts_noNl s _ hmem

theorem dropLast_parts_noNl (s : Str) : ∀ l ∈ (splitNl s).dropLast, noNl l := by
  intro l hl
  exact splitNl_parts_noNl s l (List.dropLast_subset _ hl)

/-- Splitting a canonical concatenation back is injective: the line list and
fragment are determined by the concatenated stream. -/
theorem terminated_inj : ∀ (ls ls' : List Str) (frag frag' : Str),
    (∀ l ∈ ls, noNl l) → (∀ l ∈ ls', noNl l) → noNl frag → noNl frag' →
    terminated ls ++ frag = terminated ls' ++ frag' → ls = ls' ∧ frag = frag' := by
  intro ls ls' frag frag' hls hls' hfrag hfrag' heq
  have h1 : splitNl (terminated ls ++ frag) = ls ++ [frag] :=
    splitNl_canonical ls frag hls hfrag
  have h2 : splitNl (terminated ls' ++ frag') = ls' ++ [frag'] :=
    splitNl_canonical ls' frag' hls' hfrag'
  rw [heq, h2] at h1
  have hlen : ls'.length = ls.length := by
    have := congrArg List.length h1
    simp at this
    omega
  constructor
  · exact List.append_inj_left h1.symm (by simp [hlen])
  · have := List.append_inj_right h1.symm (by simp [hlen])
    simpa using this

/-! ## Claim theorems -/

/-- C6 counterexample: the caller model name `toString` is unregistered
(no own key in `MODEL_MAPPING`), yet the indexed read traverses the
prototype chain and yields the inherited, truthy
`Object.prototype.toString`, which `||` keeps — the fallback identifier
is not returned. -/
theorem c6_proto_counterexample :
    lookupS MODEL_MAPPING (("toString").data) = none ∧
    nimModelOf (("toString").data) = .protoMember (("toString").data) ∧
    nimModelOf (("toString").data) ≠ .str FALLBACK_MODEL :=
  ⟨rfl, rfl, by decide⟩

/-- C6 (amended): for every caller-supplied model name, the mapper
returns the upstream identifier registered for it; when the name is
unregistered and is not the name of an inherited `Object.prototype`
member, it returns the fixed fallback identifier; for an unregistered
inherited prototype-member name the indexed read yields that inherited
truthy member instead of the fallback.  The mapper is a total Lean
function (never fails), and the fallback is distinct from all mapped
entries. -/
theorem c6_model_mapper :
    (∀ p ∈ MODEL_MAPPING, nimModelOf p.1 = .str p.2) ∧
    (∀ m, lookupS MODEL_MAPPING m = none → m ∉ objectProtoKeys →
      nimModelOf m = .str FALLBACK_MODEL) ∧
    (∀ m, lookupS MODEL_MAPPING m = none → m ∈ objectProtoKeys →
      nimModelOf m = .protoMember m) ∧
    (∀ p ∈ MODEL_MAPPING, p.2 ≠ FALLBACK_MODEL) := by
  refine ⟨by decide, ?_, ?_, by decide⟩
  · intro m h hnp
    simp [nimModelOf, modelMappingGet, h, hnp]
  · intro m h hp
    simp [nimModelOf, modelMappingGet, h, hp, truthyModelValue]

/-- C6 witness: the unmapped name resolves to the fallback, a mapped
name resolves to its registered upstream identifier, and the prototype
name `toString` resolves to the inherited member. -/
theorem c6_model_mapper_witness :
    nimModelOf (("unknown-model-xyz").data) = .str FALLBACK_MODEL ∧
    nimModelOf (("gpt-4").data) = .str (("deepseek-ai/deepseek-v3.2").data) ∧
    nimModelOf (("toString").data) = .protoMember (("toString").data) :=
  ⟨c6_model_mapper.2.1 (("unknown-model-xyz").data) rfl (by decide),
   c6_model_mapper.1 ((("gpt-4").data, ("deepseek-ai/deepseek-v3.2").data)) (by decide),
   c6_model_mapper.2.2.1 (("toString").data) rfl (by decide)⟩

/-- Away from the inherited `Object.prototype` member names, the full
indexed-read semantics agrees with the string-level `resolveModel`. -/
theorem nimModelOf_eq_resolveModel (m : Str) (hm : m ∉ objectProtoKeys) :
    nimModelOf m = .str (resolveModel m) := by
  cases h : lookupS MODEL_MAPPING m with
  | none => simp [nimModelOf, modelMappingGet, h, hm, resolveModel]
  | some v =>
    by_cases he : v.isEmpty
    · simp [nimModelOf, modelMappingGet, h, resolveModel, truthyModelValue, he]
    · simp [nimModelOf, modelMappingGet, h, resolveModel, truthyModelValue, he]

/-- C2: the content-merge rule of the streaming transcoder.  With the
toggle enabled and a non-empty reasoning string, the merged content is
the `<think>` wrapper around the reasoning, two newlines, then the
visible content; with the toggle disabled, or empty reasoning, the
visible content is unchanged (defaulting to the empty string when
absent); and the concrete example merges to
`<think>thinking...</think>\n\nWorld`. -/
theorem c2_reasoning_merge (delta : Js) (r c : Str) :
    (mergeContent false delta = nullish (propU delta kContent) (.str [])) ∧
    (nullish (propU delta kReasoning) (.str []) = .str [] →
      mergeContent true delta = nullish (propU delta kContent) (.str [])) ∧
    (propU delta kReasoning = some (.str r) → r ≠ [] →
      propU delta kContent = some (.str c) →
      mergeContent true delta = .str (thinkOpen ++ r ++ thinkCloseNl ++ c)) ∧
    (propU delta kReasoning = some (.str r) → r ≠ [] →
      propU delta kContent = none →
      mergeContent true delta = .str (thinkOpen ++ r ++ thinkCloseNl)) ∧
    (mergeContent true (.obj [(kContent, .str (("World").data)),
        (kReasoning, .str (("thinking...").data))])
      = .str (("<think>thinking...</think>\n\nWorld").data)) := by
  refine ⟨?_, ?_, ?_, ?_, ?_⟩
  · simp [mergeContent]
  · intro h
    simp [mergeContent, h, truthy]
  · intro hr hrne hc
    cases r with
    | nil => exact absurd rfl hrne
    | cons a as =>
      simp [mergeContent, hr, hc, nullish, truthy, toStringJs]
  · intro hr hrne hc
    cases r with
    | nil => exact absurd rfl hrne
    | cons a as =>
      simp [mergeContent, hr, hc, nullish, truthy, toStringJs]
  · rfl

/-- C2 witness: instantiation at a concrete delta with visible content
`"World"` and reasoning `"thinking..."`, for both toggle states. -/
theorem c2_reasoning_merge_witness :
    mergeContent true (.obj [(kContent, .str (("World").data)),
        (kReasoning, .str (("thinking...").data))])
      = .str (("<think>thinking...</think>\n\nWorld").data) ∧
    mergeContent false (.obj [(kContent, .str (("World").data)),
        (kReasoning, .str (("thinking...").data))])
      = .str (("World").data) := by
  constructor
  · exact ((c2_reasoning_merge (.obj []) [] []).2.2.2.2)
  · exact ((c2_reasoning_merge (.obj [(kContent, .str (("World").data)),
      (kReasoning, .str (("thinking...").data))]) (("thinking...").data)
      (("World").data)).1).trans rfl

/-! ### Per-line processing helper equations -/

theorem processLines_skip (showR : Bool) (l : Str) (ls : List Str)
    (h : startsWith dataTag l = false) :
    processLines showR (l :: ls) = processLines showR ls := by
  simp [processLines, h]

theorem processLines_done (showR : Bool) (l : Str) (ls : List Str)
    (h1 : startsWith dataTag l = true) (h2 : containsSub doneTag l = true) :
    processLines showR (l :: ls) = ([sentinelOut], true) := by
  simp [processLines, h1, h2]

theorem processLines_drop (showR : Bool) (l : Str) (ls : List Str)
    (h1 : startsWith dataTag l = true) (h2 : containsSub doneTag l = false)
    (h3 : handleDataLine showR (l.drop 5) = none) :
    processLines showR (l :: ls) = processLines showR ls := by
  simp [processLines, h1, h2, h3]

theorem processLines_emit (showR : Bool) (l : Str) (ls : List Str) (out : Str)
    (h1 : startsWith dataTag l = true) (h2 : containsSub doneTag l = false)
    (h3 : handleDataLine showR (l.drop 5) = some out) :
    processLines showR (l :: ls)
      = (out :: (processLines showR ls).1, (processLines showR ls).2) := by
  simp [processLines, h1, h2, h3]

/-- C4 counterexample: the line `data: [DONE]x` begins with the `data:`
prefix, its payload is not valid JSON and is not the sentinel, yet the
transcoder emits the sentinel event and terminates the chunk loop,
because the `includes("[DONE]")` test runs before `JSON.parse`. -/
theorem c4_invalid_json_counterexample :
    startsWith dataTag (("data: [DONE]x").data) = true ∧
    (("data: [DONE]x").data).drop 5 ≠ doneTag ∧
    parseJson ((("data: [DONE]x").data).drop 5) = none ∧
    processLines false [("data: [DONE]x").data] = ([sentinelOut], true) := by
  refine ⟨rfl, by decide, rfl, rfl⟩

/-- C4 (amended): for every line that begins with the `data:` prefix,
whose payload is not valid JSON, and which does not contain the sentinel
substring `[DONE]`, the transcoder emits zero output lines, does not
terminate the stream, and continues with subsequent lines. -/
theorem c4_invalid_json_dropped (showR : Bool) (l : Str) (rest : List Str)
    (h1 : startsWith dataTag l = true)
    (h2 : containsSub doneTag l = false)
    (h3 : parseJson (l.drop 5) = none) :
    processLines showR (l :: rest) = processLines showR rest := by
  apply processLines_drop showR l rest h1 h2
  simp [handleDataLine, transcodeEvent, h3]

/-- C4 witness: the malformed line `data: oops` is dropped with no
output and no termination. -/
theorem c4_invalid_json_dropped_witness :
    startsWith dataTag (("data: oops").data) = true ∧
    containsSub doneTag (("data: oops").data) = false ∧
    parseJson ((("data: oops").data).drop 5) = none ∧
    processLines false [("data: oops").data] = processLines false [] :=
  ⟨rfl, by decide, rfl,
   c4_invalid_json_dropped false (("data: oops").data) [] rfl (by decide) rfl⟩

/-- C3 counterexample: two chunks of the same logical stream, each the
line `data: [DONE]`, make the transcoder emit the terminal sentinel
twice — the `[DONE]` early `return` only exits one `data` callback and
no done-flag is kept, so lines arriving in later chunks of the same
stream are still processed. -/
theorem c3_done_cross_chunk_counterexample :
    (("data:[DONE]").data).drop 5 = doneTag ∧
    (runStream false [] [("data:[DONE]\n").data, ("data:[DONE]\n").data]).1
      = [sentinelOut, sentinelOut] ∧
    ((runStream false [] [("data:[DONE]\n").data, ("data:[DONE]\n").data]).1).length ≠ 1 :=
  ⟨rfl, rfl, by decide⟩

/-- C3 (amended): within the chunk in which a `data:` line containing
`[DONE]` appears, the transcoder emits exactly one verbatim terminal
sentinel event after the outputs of the preceding lines and processes no
further lines of that chunk (the result does not depend on the lines
after the sentinel); the source keeps no done-flag, so lines of later
chunks are still processed. -/
theorem c3_done_within_chunk (showR : Bool) (pre post : List Str) (l : Str)
    (hpre : (processLines showR pre).2 = false)
    (h1 : startsWith dataTag l = true)
    (h2 : containsSub doneTag l = true) :
    processLines showR (pre ++ l :: post)
      = ((processLines showR pre).1 ++ [sentinelOut], true) := by
  induction pre with
  | nil =>
    simp only [List.nil_append]
    rw [processLines_done showR l post h1 h2]
    rfl
  | cons p pre ih =>
    by_cases hp : startsWith dataTag p = false
    · rw [List.cons_append, processLines_skip showR p _ hp]
      rw [processLines_skip showR p pre hp] at hpre ⊢
      exact ih hpre
    · have hp' : startsWith dataTag p = true := by
        cases hq : startsWith dataTag p
        · exact absurd hq hp
        · rfl
      by_cases hd : containsSub doneTag p = true
      · rw [processLines_done showR p pre hp' hd] at hpre
        cases hpre
      · have hd' : containsSub doneTag p = false := by
          cases hq : containsSub doneTag p
          · rfl
          · exact absurd hq hd
        cases hh : handleDataLine showR (p.drop 5) with
        | none =>
          rw [List.cons_append, processLines_drop showR p _ hp' hd' hh]
          rw [processLines_drop showR p pre hp' hd' hh] at hpre ⊢
          exact ih hpre
        | some out =>
          rw [List.cons_append, processLines_emit showR p _ out hp' hd' hh]
          rw [processLines_emit showR p pre out hp' hd' hh] at hpre ⊢
          simp only at hpre
          rw [ih hpre]
          simp

/-- C3 witness: a chunk whose lines are `data: [DONE]` followed by a
valid event line emits exactly the sentinel and skips the trailing
line. -/
theorem c3_done_within_chunk_witness :
    (processLines false []).2 = false ∧
    startsWith dataTag (("data: [DONE]").data) = true ∧
    containsSub doneTag (("data: [DONE]").data) = true ∧
    processLines false [("data: [DONE]").data,
        ("data: \x7b\"choices\":[\x7b\"delta\":\x7b\"content\":\"hi\"\x7d\x7d]\x7d").data]
      = ([sentinelOut], true) :=
  ⟨rfl, rfl, by decide,
   c3_done_within_chunk false [] [("data: \x7b\"choices\":[\x7b\"delta\":\x7b\"content\":\"hi\"\x7d\x7d]\x7d").data]
     (("data: [DONE]").data) rfl rfl (by decide)⟩

theorem lookupF_setFieldF (fs : List (Str × Js)) (k : Str) (v : Js) :
    lookupF (setFieldF fs k v) k = some v := by
  induction fs with
  | nil => simp [setFieldF, lookupF]
  | cons p fs ih =>
    obtain ⟨k', v'⟩ := p
    by_cases h : k' = k
    · simp [setFieldF, h, lookupF]
    · simp [setFieldF, h, lookupF, ih]

/-- C5: every emitted streaming event is the parsed event with its first
choice's delta replaced by an object holding exactly one field — the
merged content — re-serialized as a `data: <json>` line followed by a
blank line. -/
theorem c5_delta_single_field (showR : Bool) (payload : Str) (out : Str)
    (h : handleDataLine showR payload = some out) :
    ∃ parsed delta ev,
      parseJson payload = some parsed ∧
      readDelta parsed = some delta ∧
      transcodeEvent showR payload = some ev ∧
      out = ("data: ").data ++ serialize ev ++ ("\n\n").data ∧
      ∃ c0 cs, propU ev kChoices = some (.arr (c0 :: cs)) ∧
        propU c0 kDelta = some (.obj [(kContent, mergeContent showR delta)]) := by
  unfold handleDataLine at h
  cases htc0 : transcodeEvent showR payload with
  | none => rw [htc0] at h; cases h
  | some ev =>
    rw [htc0] at h
    have hout : out = ("data: ").data ++ serialize ev ++ ("\n\n").data := by
      simpa using h.symm
    have htc := htc0
    cases hp : parseJson payload with
    | none => simp [transcodeEvent, hp] at htc
    | some parsed =>
      cases hd : readDelta parsed with
      | none => simp [transcodeEvent, hp, hd] at htc
      | some delta =>
        simp only [transcodeEvent, hp, hd] at htc
        unfold setFirstChoiceDelta at htc
        split at htc
        · rename_i fs cs heq
          cases parsed with
          | obj pfs =>
            simp only [Option.some_inj] at htc
            refine ⟨.obj pfs, delta, ev, rfl, hd, rfl, hout, ?_⟩
            refine ⟨.obj (setFieldF fs kDelta (.obj [(kContent, mergeContent showR delta)])),
              cs, ?_, ?_⟩
            · rw [← htc]
              simpa [propU] using
                lookupF_setFieldF pfs kChoices
                  (.arr (.obj (setFieldF fs kDelta (.obj [(kContent, mergeContent showR delta)])) :: cs))
            · simpa [propU] using
                lookupF_setFieldF fs kDelta (.obj [(kContent, mergeContent showR delta)])
          | null => simp [propU] at heq
          | bool b => simp [propU] at heq
          | num n => simp [propU] at heq
          | str s => simp [propU] at heq
          | arr xs => simp [propU] at heq
        · cases htc

/-- C5 witness: a concrete event whose delta holds both `content` and
`reasoning_content` is emitted with the delta replaced by the single
merged content field. -/
theorem c5_delta_single_field_witness :
    ∃ parsed delta ev,
      parseJson ((("data: \x7b\"choices\":[\x7b\"delta\":\x7b\"content\":\"hi\",\"reasoning_content\":\"r\"\x7d\x7d]\x7d").data).drop 5) = some parsed ∧
      readDelta parsed = some delta ∧
      transcodeEvent false ((("data: \x7b\"choices\":[\x7b\"delta\":\x7b\"content\":\"hi\",\"reasoning_content\":\"r\"\x7d\x7d]\x7d").data).drop 5) = some ev ∧
      ("data: \x7b\"choices\":[\x7b\"delta\":\x7b\"content\":\"hi\"\x7d\x7d]\x7d\n\n").data
        = ("data: ").data ++ serialize ev ++ ("\n\n").data ∧
      ∃ c0 cs, propU ev kChoices = some (.arr (c0 :: cs)) ∧
        propU c0 kDelta = some (.obj [(kContent, mergeContent false delta)]) :=
  c5_delta_single_field false
    ((("data: \x7b\"choices\":[\x7b\"delta\":\x7b\"content\":\"hi\",\"reasoning_content\":\"r\"\x7d\x7d]\x7d").data).drop 5)
    (("data: \x7b\"choices\":[\x7b\"delta\":\x7b\"content\":\"hi\"\x7d\x7d]\x7d\n\n").data)
    rfl

theorem carries_mkChoiceObj (c : Js) (cv : Option Js) :
    choiceCarries c (mkChoiceObj c cv) := by
  unfold choiceCarries mkChoiceObj
  cases hiv : propU c kIndex <;> cases hfv : propU c kFinishReason <;>
    exact ⟨rfl, rfl,
      .obj (mkObjFields [(kRole, some (.str roleAssistant)), (kContent, cv)]), rfl, rfl⟩

theorem mapChoiceBody_shape (showR : Bool) (c cOut : Js)
    (h : mapChoiceBody showR c = some cOut) : ∃ cv, cOut = mkChoiceObj c cv := by
  simp only [mapChoiceBody] at h
  split at h
  · split at h
    · exact Option.noConfusion h
    · exact Option.noConfusion h
    · exact ⟨_, (Option.some_inj.mp h).symm⟩
  · split at h
    · exact Option.noConfusion h
    · exact Option.noConfusion h
    · exact ⟨_, (Option.some_inj.mp h).symm⟩

theorem mapChoice_carries (showR : Bool) (c cOut : Js)
    (h : mapChoice showR c = some cOut) : choiceCarries c cOut := by
  have hbody : mapChoiceBody showR c = some cOut := by
    cases c with
    | null => exact Option.noConfusion h
    | bool b => exact h
    | num n => exact h
    | str s => exact h
    | arr xs => exact h
    | obj fs => exact h
  obtain ⟨cv, rfl⟩ := mapChoiceBody_shape showR c cOut hbody
  exact carries_mkChoiceObj c cv

theorem mapChoices_forall₂ (showR : Bool) :
    ∀ (cs cs' : List Js), mapChoices showR cs = some cs' →
      List.Forall₂ choiceCarries cs cs' := by
  intro cs
  induction cs with
  | nil =>
    intro cs' h
    simp only [mapChoices, Option.some_inj] at h
    subst h
    exact List.Forall₂.nil
  | cons c cs ih =>
    intro cs' h
    cases hc : mapChoice showR c with
    | none => simp [mapChoices, hc] at h
    | some c1 =>
      cases hcs : mapChoices showR cs with
      | none => simp [mapChoices, hc, hcs] at h
      | some rest =>
        simp only [mapChoices, hc, hcs, Option.some_inj] at h
        subst h
        exact List.Forall₂.cons (mapChoice_carries showR c c1 hc) (ih rest hcs)

theorem mapChoices_none_of_mem (showR : Bool) (cs : List Js) (c : Js)
    (hmem : c ∈ cs) (hc : mapChoice showR c = none) :
    mapChoices showR cs = none := by
  induction cs with
  | nil => cases hmem
  | cons a as ih =>
    rcases List.mem_cons.mp hmem with rfl | hmem'
    · simp [mapChoices, hc]
    · cases ha : mapChoice showR a <;> simp [mapChoices, ha, ih hmem']

theorem mapChoice_none_of_missing_message (showR : Bool) (c : Js)
    (h : c = .null ∨ propU c kMessage = none ∨ propU c kMessage = some .null) :
    mapChoice showR c = none := by
  rcases h with rfl | h | h
  · rfl
  all_goals
    cases c <;>
      simp_all [mapChoice, mapChoiceBody, optProp, truthyO, propU]

/-- C10: a non-streaming upstream body without a `choices` array, or
with a choice lacking a `message` object, makes the handler respond with
the single generic 500 error body and no partial ChatResponse — the
thrown `TypeError` is collapsed by the surrounding `catch` to the same
shape as an upstream transport failure. -/
theorem c10_nonstream_error (showR : Bool) (now : Nat) (model : Str) (data : Js)
    (h : (∀ xs, propU data kChoices ≠ some (.arr xs)) ∨
         (∃ cs, propU data kChoices = some (.arr cs) ∧
            ∃ c ∈ cs, c = .null ∨ propU c kMessage = none ∨ propU c kMessage = some .null)) :
    handleNonStreamRoute showR now model data = (500, errorBody) := by
  have hb : buildOpenAIResponse showR now model data = none := by
    rcases h with hA | ⟨cs, hch, c, hmem, hfail⟩
    · cases data with
      | null => rfl
      | obj pfs =>
        cases hch : lookupF pfs kChoices with
        | none => simp [buildOpenAIResponse, propU, hch]
        | some v =>
          cases v with
          | arr xs =>
            exact absurd (show propU (Js.obj pfs) kChoices = some (.arr xs) by
              simp [propU, hch]) (hA xs)
          | null => simp [buildOpenAIResponse, propU, hch]
          | bool b => simp [buildOpenAIResponse, propU, hch]
          | num n => simp [buildOpenAIResponse, propU, hch]
          | str s => simp [buildOpenAIResponse, propU, hch]
          | obj fs => simp [buildOpenAIResponse, propU, hch]
      | bool b => simp [buildOpenAIResponse, propU]
      | num n => simp [buildOpenAIResponse, propU]
      | str s => simp [buildOpenAIResponse, propU]
      | arr xs => simp [buildOpenAIResponse, propU]
    · have hmc : mapChoices showR cs = none :=
        mapChoices_none_of_mem showR cs c hmem
          (mapChoice_none_of_missing_message showR c hfail)
      cases data with
      | null => rfl
      | obj pfs =>
        simp only [propU] at hch
        simp [buildOpenAIResponse, propU, hch, hmc]
      | bool b => simp [propU] at hch
      | num n => simp [propU] at hch
      | str s => simp [propU] at hch
      | arr xs => simp [propU] at hch
  simp [handleNonStreamRoute, hb]

/-- C10 witness: a body with no `choices` key, and a body whose only
choice has no `message`, both collapse to the generic 500 body. -/
theorem c10_nonstream_error_witness :
    handleNonStreamRoute false 0 (("gpt-4").data) (.obj []) = (500, errorBody) ∧
    handleNonStreamRoute false 0 (("gpt-4").data)
      (.obj [(kChoices, .arr [.obj []])]) = (500, errorBody) :=
  ⟨c10_nonstream_error false 0 (("gpt-4").data) (.obj [])
     (Or.inl (fun _ h => Option.noConfusion h)),
   c10_nonstream_error false 0 (("gpt-4").data) (.obj [(kChoices, .arr [.obj []])])
     (Or.inr ⟨[.obj []], rfl, .obj [], List.mem_singleton.mpr rfl, Or.inr (Or.inl rfl)⟩)⟩

/-- C7: a successful non-streaming ChatResponse carries each upstream
choice's index and finish reason verbatim, always sets the message role
to `"assistant"`, passes the upstream usage object through verbatim
defaulting to `{}` when absent, and echoes the caller's original
requested model name — not the resolved upstream identifier — in the
`model` field. -/
theorem c7_nonstream_response (showR : Bool) (now : Nat) (model : Str) (data : Js)
    (cs : List Js) (resp : Js)
    (hch : propU data kChoices = some (.arr cs))
    (hb : buildOpenAIResponse showR now model data = some resp) :
    propU resp kModel = some (.str model) ∧
    (resolveModel model ≠ model → propU resp kModel ≠ some (.str (resolveModel model))) ∧
    (propU data kUsage = none → propU resp kUsage = some (.obj [])) ∧
    (∀ u, propU data kUsage = some u → u ≠ .null → propU resp kUsage = some u) ∧
    ∃ cs', propU resp kChoices = some (.arr cs') ∧ List.Forall₂ choiceCarries cs cs' := by
  cases data with
  | null => simp [propU] at hch
  | bool b => simp [propU] at hch
  | num n => simp [propU] at hch
  | str s => simp [propU] at hch
  | arr xs => simp [propU] at hch
  | obj pfs =>
    simp only [propU] at hch
    cases hm : mapChoices showR cs with
    | none => simp [buildOpenAIResponse, propU, hch, hm] at hb
    | some cs' =>
      simp only [buildOpenAIResponse, propU, hch, hm, Option.some_inj] at hb
      subst hb
      refine ⟨rfl, ?_, ?_, ?_, cs', rfl, mapChoices_forall₂ showR cs cs' hm⟩
      · intro hne heq
        exact hne (Js.str.inj (Option.some_inj.mp heq)).symm
      · intro hu
        simp only [propU] at hu
        rw [hu]
        rfl
      · intro u hu hnn
        simp only [propU] at hu
        rw [hu]
        cases u with
        | null => exact absurd rfl hnn
        | bool b => rfl
        | num n => rfl
        | str s => rfl
        | arr xs => rfl
        | obj fs => rfl

/-- C7 witness: a one-choice upstream body with no usage field yields a
response echoing the caller's model name `gpt-4` (whose resolved
upstream identifier differs) and `usage: {}`. -/
theorem c7_nonstream_response_witness :
    propU (Js.obj
      [(kId, .str (("chatcmpl-").data ++ natToStr 0)),
       (kObject, .str (("chat.completion").data)),
       (kCreated, .num 0),
       (kModel, .str (("gpt-4").data)),
       (kChoices, .arr [Js.obj
         [(kIndex, .num 0),
          (kMessage, .obj [(kRole, .str roleAssistant), (kContent, .str (("hi").data))]),
          (kFinishReason, .str (("stop").data))]]),
       (kUsage, .obj [])]) kModel = some (.str (("gpt-4").data)) ∧
    propU (Js.obj
      [(kId, .str (("chatcmpl-").data ++ natToStr 0)),
       (kObject, .str (("chat.completion").data)),
       (kCreated, .num 0),
       (kModel, .str (("gpt-4").data)),
       (kChoices, .arr [Js.obj
         [(kIndex, .num 0),
          (kMessage, .obj [(kRole, .str roleAssistant), (kContent, .str (("hi").data))]),
          (kFinishReason, .str (("stop").data))]]),
       (kUsage, .obj [])]) kUsage = some (.obj []) ∧
    resolveModel (("gpt-4").data) ≠ (("gpt-4").data) :=
  ⟨(c7_nonstream_response false 0 (("gpt-4").data)
      (.obj [(kChoices, .arr [Js.obj
        [(kIndex, .num 0),
         (kMessage, .obj [(kContent, .str (("hi").data))]),
         (kFinishReason, .str (("stop").data))]])])
      [Js.obj
        [(kIndex, .num 0),
         (kMessage, .obj [(kContent, .str (("hi").data))]),
         (kFinishReason, .str (("stop").data))]]
      (Js.obj
        [(kId, .str (("chatcmpl-").data ++ natToStr 0)),
         (kObject, .str (("chat.completion").data)),
         (kCreated, .num 0),
         (kModel, .str (("gpt-4").data)),
         (kChoices, .arr [Js.obj
           [(kIndex, .num 0),
            (kMessage, .obj [(kRole, .str roleAssistant), (kContent, .str (("hi").data))]),
            (kFinishReason, .str (("stop").data))]]),
         (kUsage, .obj [])]) rfl rfl).1,
   (c7_nonstream_response false 0 (("gpt-4").data)
      (.obj [(kChoices, .arr [Js.obj
        [(kIndex, .num 0),
         (kMessage, .obj [(kContent, .str (("hi").data))]),
         (kFinishReason, .str (("stop").data))]])])
      [Js.obj
        [(kIndex, .num 0),
         (kMessage, .obj [(kContent, .str (("hi").data))]),
         (kFinishReason, .str (("stop").data))]]
      (Js.obj
        [(kId, .str (("chatcmpl-").data ++ natToStr 0)),
         (kObject, .str (("chat.completion").data)),
         (kCreated, .num 0),
         (kModel, .str (("gpt-4").data)),
         (kChoices, .arr [Js.obj
           [(kIndex, .num 0),
            (kMessage, .obj [(kRole, .str roleAssistant), (kContent, .str (("hi").data))]),
            (kFinishReason, .str (("stop").data))]]),
         (kUsage, .obj [])]) rfl rfl).2.2.1 rfl,
   by decide⟩

theorem stepRA_join (b c : Str) :
    terminated (stepRA b c).1 ++ (stepRA b c).2 = b ++ c := by
  simpa [stepRA] using split_join (b ++ c)

theorem runRA_spec : ∀ (cs : List Str) (b : Str),
    terminated (runRA b cs).1 ++ (runRA b cs).2 = b ++ cs.join ∧
    (∀ l ∈ (runRA b cs).1, noNl l) := by
  intro cs
  induction cs with
  | nil =>
    intro b
    exact ⟨by simp [runRA, terminated], by simp [runRA]⟩
  | cons c cs ih =>
    intro b
    constructor
    · have h1 := stepRA_join b c
      have h2 := (ih (stepRA b c).2).1
      simp only [runRA, terminated_append, List.append_assoc, List.join_cons]
      rw [h2, ← List.append_assoc, h1, List.append_assoc]
    · intro l hl
      simp only [runRA, List.mem_append] at hl
      rcases hl with hl | hl
      · exact dropLast_parts_noNl (b ++ c) l (by simpa [stepRA] using hl)
      · exact (ih (stepRA b c).2).2 l hl

theorem runRA_buf_noNl : ∀ (cs : List Str) (b : Str), noNl b → noNl (runRA b cs).2 := by
  intro cs
  induction cs with
  | nil => intro b hb; simpa [runRA] using hb
  | cons c cs ih =>
    intro b _
    simp only [runRA]
    exact ih (stepRA b c).2 (by simpa [stepRA] using lastSeg_noNl (b ++ c))

/-- The Reassembler's output on a canonical stream decomposition. -/
theorem runRA_canonical (chunks : List Str) (ls : List Str) (frag : Str)
    (hls : ∀ l ∈ ls, noNl l) (hfrag : noNl frag)
    (hcat : chunks.join = terminated ls ++ frag) :
    runRA [] chunks = (ls, frag) := by
  obtain ⟨out, buf, hrun⟩ : ∃ out buf, runRA [] chunks = (out, buf) :=
    ⟨(runRA [] chunks).1, (runRA [] chunks).2, rfl⟩
  have hspec := (runRA_spec chunks []).1
  have hparts := (runRA_spec chunks []).2
  rw [hrun] at hspec hparts
  simp only [List.nil_append] at hspec
  rw [hcat] at hspec
  have hbuf : noNl buf := by
    have := runRA_buf_noNl chunks [] (by intro h; cases h)
    rwa [hrun] at this
  obtain ⟨h1, h2⟩ := terminated_inj out ls buf frag hparts hls hbuf hfrag hspec
  rw [hrun, h1, h2]

theorem runRA_append (cs ds : List Str) : ∀ b : Str,
    runRA b (cs ++ ds)
      = ((runRA b cs).1 ++ (runRA (runRA b cs).2 ds).1, (runRA (runRA b cs).2 ds).2) := by
  induction cs with
  | nil => intro b; simp [runRA]
  | cons c cs ih =>
    intro b
    rw [List.cons_append]
    simp only [runRA]
    rw [ih (stepRA b c).2]
    simp [List.append_assoc]

/-- C1: a chunk sequence whose concatenation is N newline-terminated
lines plus an unterminated fragment makes the Reassembler emit exactly
those N lines in arrival order and keep the fragment in its accumulator;
a further chunk completing the fragment makes the completed line the
next one emitted (line N+1). -/
theorem c1_reassembler (chunks : List Str) (ls : List Str) (frag : Str)
    (d dpre drest : Str)
    (hls : ∀ l ∈ ls, noNl l) (hfrag : noNl frag) (hne : frag ≠ [])
    (hcat : chunks.join = terminated ls ++ frag)
    (hdpre : noNl dpre) (hd : d = dpre ++ '\n' :: drest) :
    runRA [] chunks = (ls, frag) ∧
    (runRA [] (chunks ++ [d])).1 = ls ++ (frag ++ dpre) :: (splitNl drest).dropLast := by
  have hmain := runRA_canonical chunks ls frag hls hfrag hcat
  refine ⟨hmain, ?_⟩
  rw [runRA_append chunks [d] [], hmain]
  have hfd : noNl (frag ++ dpre) := by
    intro hm
    rcases List.mem_append.mp hm with hm | hm
    · exact hfrag hm
    · exact hdpre hm
  have hsplit : splitNl (frag ++ d) = (frag ++ dpre) :: splitNl drest := by
    rw [hd, ← List.append_assoc]
    exact splitNl_term (frag ++ dpre) drest hfd
  obtain ⟨s0, S', hS⟩ := List.exists_cons_of_ne_nil (splitNl_ne_nil drest)
  simp only [runRA, stepRA, hsplit, hS, List.dropLast, List.append_nil]

/-- C1 witness: two chunks forming `line1\nline2\nfr`, then a chunk
`ag\nrest` completing the fragment `fr` into the next line `frag`. -/
theorem c1_reassembler_witness :
    runRA [] [("li").data, ("ne1\nline2\nfr").data]
      = ([("line1").data, ("line2").data], ("fr").data) ∧
    (runRA [] ([("li").data, ("ne1\nline2\nfr").data] ++ [("ag\nrest").data])).1
      = [("line1").data, ("line2").data]
        ++ ((("fr").data ++ ("ag").data) :: (splitNl (("rest").data)).dropLast) :=
  c1_reassembler [("li").data, ("ne1\nline2\nfr").data]
    [("line1").data, ("line2").data] (("fr").data)
    (("ag\nrest").data) (("ag").data) (("rest").data)
    (by decide) (by decide) (by decide) rfl (by decide) rfl

theorem runStream_buf (showR : Bool) : ∀ (cs : List Str) (b : Str),
    (runStream showR b cs).2 = (runRA b cs).2 := by
  intro cs
  induction cs with
  | nil => intro b; rfl
  | cons c cs ih => intro b; simp only [runStream, runRA, streamStep]; exact ih (stepRA b c).2

/-- C8: when the upstream stream ends, the residual unterminated
fragment held in the accumulator is discarded: the end handler writes
nothing, so the caller only ever receives output derived from complete
newline-terminated lines, never the trailing fragment. -/
theorem c8_residual_discarded (showR : Bool) (chunks : List Str)
    (ls : List Str) (frag : Str)
    (hls : ∀ l ∈ ls, noNl l) (hfrag : noNl frag)
    (hcat : chunks.join = terminated ls ++ frag) :
    runRA [] chunks = (ls, frag) ∧
    (runStream showR [] chunks).2 = frag ∧
    runStreamWithEnd showR chunks = (runStream showR [] chunks).1 := by
  have hmain := runRA_canonical chunks ls frag hls hfrag hcat
  refine ⟨hmain, ?_, ?_⟩
  · rw [runStream_buf showR chunks [], hmain]
  · simp [runStreamWithEnd, onEnd]

/-- C8 witness: a single chunk with one complete line and the trailing
fragment `partial`; the fragment stays in the accumulator and the end
handler emits nothing. -/
theorem c8_residual_discarded_witness :
    runRA [] [("data: [DONE]\npartial").data]
      = ([("data: [DONE]").data], ("partial").data) ∧
    (runStream false [] [("data: [DONE]\npartial").data]).2 = ("partial").data ∧
    runStreamWithEnd false [("data: [DONE]\npartial").data]
      = (runStream false [] [("data: [DONE]\npartial").data]).1 :=
  c8_residual_discarded false [("data: [DONE]\npartial").data]
    [("data: [DONE]").data] (("partial").data)
    (by decide) (by decide) rfl
